import Mathlib

/-!
Verification of the project2md signature extraction engine and file walker.

The signature engine (project2md/signature_processor.py, the SignatureProcessor
class) is exercised by the repository's tests but its module is not present in
the source tree we were given; its behaviour is therefore modelled from the
specification, with the concrete expectations of the repository's test suite
(tests/test_signature_processor.py, tests/test_signature_processor_improvements.py)
used to pin down the points where the specification's prose is ambiguous.
The file-system walker (reposcribe/walker.py) is present and is embedded
directly from its source.

Machine text is modelled as Lean String values; Python's str.split, str.strip,
str.lstrip and str.startswith are re-implemented structurally over the
underlying character lists so that every definition evaluates by kernel
reduction.
-/

set_option autoImplicit false

namespace Project2md

/-- The opening curly brace character, written via its code point. -/
def lbrace : Char := Char.ofNat 123

/-- The closing curly brace character, written via its code point. -/
def rbrace : Char := Char.ofNat 125

/-- Split a character list on a separator character, mirroring Python's
str.split(sep): the result always has one more element than the number of
separator occurrences, so an empty input gives one empty segment. -/
def splitOnChar (sep : Char) : List Char → List (List Char)
  | [] => [[]]
  | ch :: rest =>
    match splitOnChar sep rest with
    | [] => [[ch]]
    | s :: ss => if ch = sep then [] :: s :: ss else (ch :: s) :: ss

/-- Modelled from the spec: the engine operates over the ordered sequence of
lines in content.split_on_newline (spec section 3, ProcessedLine); this mirrors
Python's content.split with a newline separator. -/
def splitLines (s : String) : List String :=
  (splitOnChar (Char.ofNat 10) s.data).map (fun cs => String.mk cs)

/-- True when the line consists only of whitespace, mirroring Python's
line.strip() being empty. -/
def isBlankLine (l : String) : Bool := l.data.all (fun ch => ch.isWhitespace)

/-- Leading-whitespace width of a line, mirroring
len(line) - len(line.lstrip()). -/
def indentOf (l : String) : Nat :=
  (l.data.takeWhile (fun ch => ch.isWhitespace)).length

/-- The line with its leading whitespace removed, mirroring line.lstrip(). -/
def stripLead (l : String) : String :=
  String.mk (l.data.dropWhile (fun ch => ch.isWhitespace))

/-- True when the line, after stripping leading whitespace, begins with the
given text, mirroring line.lstrip().startswith(pre). -/
def lineStarts (l pre : String) : Bool :=
  pre.data.isPrefixOf (stripLead l).data

/-- Lower-case a string character by character, mirroring str.lower() for the
ASCII extensions the classifier deals with. -/
def lowerStr (s : String) : String := String.mk (s.data.map Char.toLower)

/-- Join a list of strings with newline separators, mirroring
newline.join(entries). -/
def joinNL : List String → String
  | [] => ""
  | [x] => x
  | x :: y :: xs => x ++ "\n" ++ joinNL (y :: xs)

/-- Modelled from the spec: a SignatureEntry (spec section 3) rendered as the
header text followed by a space and the bracketed line span. -/
def renderEntry (l : String) (n : Nat) : String :=
  l ++ " [lines:" ++ toString n ++ "]"

/-! ### Extension classifier (spec section 4.1) -/

/-- Languages with a known pattern table (spec section 4.1). -/
inductive Lang
  | py | js | jsx | ts | tsx | go | rs | java | c | cpp | rb | php
deriving DecidableEq

/-- Span strategy of a language: brace-delimited or indentation-delimited
(spec section 9, design notes). -/
inductive SpanStrategy
  | brace | indent
deriving DecidableEq

/-- Processing category of a file (spec section 3). -/
inductive Category
  | lineCountOnly
  | markdown
  | code (lang : Lang)
  | passthrough
deriving DecidableEq

/-- Modelled from the spec: the fixed set of extensions that map to the
LINE_COUNT_ONLY category (spec section 4.1), matching the extension list of
test_all_config_extensions_supported. -/
def lineCountOnlyExts : List String :=
  ["yml", "yaml", "json", "toml", "ini", "cfg", "conf", "config",
   "txt", "log", "csv", "xml", "properties"]

/-- Modelled from the spec: the fixed set of extensions with a known
language pattern table (spec section 4.1). -/
def codeLangOfExt (e : String) : Option Lang :=
  match e with
  | "py" => some .py
  | "js" => some .js
  | "jsx" => some .jsx
  | "ts" => some .ts
  | "tsx" => some .tsx
  | "go" => some .go
  | "rs" => some .rs
  | "java" => some .java
  | "c" => some .c
  | "cpp" => some .cpp
  | "rb" => some .rb
  | "php" => some .php
  | _ => none

/-- Modelled from the spec: the lowercase suffix of a path without the leading
dot; a path with no dot has no suffix (spec section 4.1). -/
def extOf (path : String) : String :=
  match splitOnChar (Char.ofNat 46) path.data with
  | [] => ""
  | [_] => ""
  | ps => lowerStr (String.mk (ps.getLastD []))

/-- Modelled from the spec: classify(path) maps the extension to a processing
category (spec section 4.1); the signature_processor module itself is not in
the source tree, so this is the classifier it describes. -/
def classify (path : String) : Category :=
  let e := extOf path
  if lineCountOnlyExts.contains e then .lineCountOnly
  else if e = "md" || e = "markdown" then .markdown
  else
    match codeLangOfExt e with
    | some lang => .code lang
    | none => .passthrough

/-! ### Block length calculators (spec sections 4.3 and 4.4) -/

/-- Number of opening braces on a line, mirroring line.count of the opening
brace. -/
def countOpen (l : String) : Nat :=
  (l.data.filter (fun ch => ch = lbrace)).length

/-- Number of closing braces on a line, mirroring line.count of the closing
brace. -/
def countClose (l : String) : Nat :=
  (l.data.filter (fun ch => ch = rbrace)).length

/-- Net brace depth change contributed by one line: occurrences of the opening
brace minus occurrences of the closing brace. -/
def braceDelta (l : String) : Int :=
  (countOpen l : Int) - (countClose l : Int)

/-- True when the line contains an opening brace. -/
def hasOpenBrace (l : String) : Bool := decide (0 < countOpen l)

/-- True when the line contains a closing brace. -/
def hasCloseBrace (l : String) : Bool := decide (0 < countClose l)

/-- Scanning loop of the brace-delimited span calculator: walks the remaining
lines carrying the running depth, whether the depth has gone above zero yet,
and the number of lines consumed so far; stops at the first line where the
depth returns to zero after having been positive, and degrades to a span of
one line when the scan ends without that ever happening. -/
def braceGo : List String → Int → Bool → Nat → Nat
  | [], _, _, _ => 1
  | l :: rest, depth, opened, consumed =>
    let d := depth + braceDelta l
    let op := opened || hasOpenBrace l
    if op && d ≤ 0 then consumed + 1 else braceGo rest d op (consumed + 1)

/-- Modelled from the spec: count_lines_by_braces (spec section 4.3, the
_count_lines_by_braces helper of the absent SignatureProcessor); the span ends
at the first line where the brace depth returns to zero after having gone
above zero, degrades to one line when no closing event is found, and never
reads past the end of the line sequence. -/
def count_lines_by_braces (lines : List String) (start : Nat) : Nat :=
  braceGo (lines.drop start) 0 false 0

/-- A line continues an indentation block when it is blank or its indentation
is strictly greater than the base indent (spec section 4.4). -/
def indentContinues (base : Nat) (l : String) : Bool :=
  isBlankLine l || decide (base < indentOf l)

/-- Modelled from the spec: count_lines_by_indent (spec section 4.4, the
_count_lines_by_indent helper of the absent SignatureProcessor); the block is
the starting line plus every following line up to, but not including, the
first non-blank line whose indentation is at most the base indent, or to end
of file. -/
def count_lines_by_indent (lines : List String) (start base : Nat) : Nat :=
  1 + ((lines.drop (start + 1)).takeWhile (indentContinues base)).length

/-! ### Pattern matchers (spec section 4.5) -/

/-- Per-language pattern table: which lines are never match candidates
(imports, comments, blanks), which lines are structural matches, and the span
strategy (spec sections 4.5 and 9). -/
structure LangTable where
  isSkip : String → Bool
  isMatch : String → Bool
  strategy : SpanStrategy

/-- Modelled from the spec: Python lines that are never match candidates -
blank lines, comment lines, and pure import lines (spec section 4.2 step 5). -/
def pySkip (l : String) : Bool :=
  isBlankLine l || lineStarts l "#" || lineStarts l "import " || lineStarts l "from "

/-- Modelled from the spec: Python structural patterns - function and class
declarations including async variants (spec section 4.5). -/
def pyMatch (l : String) : Bool :=
  lineStarts l "def " || lineStarts l "async def " || lineStarts l "class "

/-- Modelled from the spec: JavaScript-family lines that are never match
candidates - blanks, comments and imports (spec section 4.2 step 5). -/
def jsSkip (l : String) : Bool :=
  isBlankLine l || lineStarts l "//" || lineStarts l "/*" || lineStarts l "*" ||
    lineStarts l "import "

/-- True when the character list contains an arrow token, an equals sign
immediately followed by a greater-than sign. -/
def hasArrow : List Char → Bool
  | '=' :: '>' :: _ => true
  | _ :: rest => hasArrow rest
  | [] => false

/-- Modelled from the spec: JavaScript-family structural patterns - function
and class declarations including async variants, and assignment-to-arrow
forms (spec section 4.5). -/
def jsMatch (l : String) : Bool :=
  lineStarts l "function " || lineStarts l "async function " || lineStarts l "class " ||
    ((lineStarts l "const " || lineStarts l "let " || lineStarts l "var ") &&
      hasArrow l.data)

/-- Modelled from the spec: skip lines for the remaining brace-delimited
languages - blanks, comments, includes and imports (spec section 4.2 step 5;
the spec does not enumerate these tables, so a representative set is used). -/
def cfamilySkip (l : String) : Bool :=
  isBlankLine l || lineStarts l "//" || lineStarts l "/*" || lineStarts l "*" ||
    lineStarts l "#" || lineStarts l "import " || lineStarts l "using " ||
    lineStarts l "package " || lineStarts l "use "

/-- Modelled from the spec: structural patterns for the remaining
brace-delimited languages - function, method and type declarations (spec
section 4.5; the spec does not enumerate these tables, so a representative
set is used). -/
def cfamilyMatch (l : String) : Bool :=
  lineStarts l "func " || lineStarts l "fn " || lineStarts l "pub " ||
    lineStarts l "class " || lineStarts l "struct " || lineStarts l "interface " ||
    lineStarts l "impl " || lineStarts l "trait " || lineStarts l "enum " ||
    lineStarts l "type " || lineStarts l "public " || lineStarts l "private " ||
    lineStarts l "protected " || lineStarts l "static " || lineStarts l "void " ||
    lineStarts l "def "

/-- Modelled from the spec: the per-language dispatch from a language tag to
its pattern table and span strategy (spec section 9, design notes). -/
def tableOf : Lang → LangTable
  | .py => ⟨pySkip, pyMatch, .indent⟩
  | .js => ⟨jsSkip, jsMatch, .brace⟩
  | .jsx => ⟨jsSkip, jsMatch, .brace⟩
  | .ts => ⟨jsSkip, jsMatch, .brace⟩
  | .tsx => ⟨jsSkip, jsMatch, .brace⟩
  | .go => ⟨cfamilySkip, cfamilyMatch, .brace⟩
  | .rs => ⟨cfamilySkip, cfamilyMatch, .brace⟩
  | .java => ⟨cfamilySkip, cfamilyMatch, .brace⟩
  | .c => ⟨cfamilySkip, cfamilyMatch, .brace⟩
  | .cpp => ⟨cfamilySkip, cfamilyMatch, .brace⟩
  | .rb => ⟨cfamilySkip, cfamilyMatch, .brace⟩
  | .php => ⟨cfamilySkip, cfamilyMatch, .brace⟩

/-! ### Markdown processing (spec section 4.2 step 4) -/

/-- Modelled from the spec: a line is an ATX header when it starts with one or
more hash characters followed by a space and text (spec section 4.2 step 4). -/
def isATXHeader (l : String) : Bool :=
  let cs := l.data
  let hs := cs.takeWhile (fun ch => ch = '#')
  !hs.isEmpty &&
    (match cs.drop hs.length with
     | [] => false
     | ch :: t => ch = ' ' && !t.isEmpty)

/-- Span of a markdown header whose following lines are rest: the number of
lines after the header up to, but not including, the next header at any level
or end of file. The repository's test suite (expected spans 2, 2, 2, 1 on the
four-header fixture) pins the count to exclude the header line itself. -/
def mdSpanFrom (rest : List String) : Nat :=
  (rest.takeWhile (fun x => !isATXHeader x)).length

/-- Modelled from the spec: scan the lines in order and emit one rendered
entry per ATX header, in document order (spec section 4.2 step 4). -/
def mdEntries : List String → List String
  | [] => []
  | l :: rest =>
    if isATXHeader l then renderEntry l (mdSpanFrom rest) :: mdEntries rest
    else mdEntries rest

/-- Modelled from the spec: markdown processing returns the newline-joined
header entries, or the empty string when the file has no headers (spec
section 4.2 step 4). -/
def processMarkdown (lines : List String) : String :=
  let es := mdEntries lines
  if es.isEmpty then "" else joinNL es

/-! ### Code processing (spec section 4.2 step 5) -/

/-- Span of a structural match at a given line index, dispatching on the
language's span strategy (spec section 4.2 step 5). -/
def codeSpanAt (t : LangTable) (lines : List String) (i : Nat) : Nat :=
  match t.strategy with
  | .brace => count_lines_by_braces lines i
  | .indent => count_lines_by_indent lines i (indentOf (lines.getD i ""))

/-- The rendered entry produced at one line index, if any: skip lines are
never candidates, matched lines are rendered with their span. -/
def codeEntryAt (t : LangTable) (lines : List String) (i : Nat) : Option String :=
  let l := lines.getD i ""
  if t.isSkip l then none
  else if t.isMatch l then some (renderEntry l (codeSpanAt t lines i))
  else none

/-- Modelled from the spec: scan the lines in order and collect the rendered
entries of every structural match (spec section 4.2 step 5). -/
def codeEntries (t : LangTable) (lines : List String) : List String :=
  (List.range lines.length).filterMap (codeEntryAt t lines)

/-- Modelled from the spec: code processing returns the newline-joined match
entries, or the literal string empty when the whole scan found zero
structural matches (spec section 4.2 step 5). -/
def processCode (t : LangTable) (lines : List String) : String :=
  let es := codeEntries t lines
  if es.isEmpty then "empty" else joinNL es

/-- Modelled from the spec: process_file(path, content) of the absent
SignatureProcessor class (spec section 4.2) - empty content returns the empty
string immediately, then the file is classified by extension and dispatched
to line counting, markdown header extraction, code signature extraction, or
verbatim pass-through. -/
def process_file (path content : String) : String :=
  if content = "" then ""
  else
    match classify path with
    | .lineCountOnly => "[lines:" ++ toString (splitLines content).length ++ "]"
    | .markdown => processMarkdown (splitLines content)
    | .code lang => processCode (tableOf lang) (splitLines content)
    | .passthrough => content

/-! ### Claim-side characterisations of the markdown pass -/

/-- Indices of the ATX header lines of a file, in document order. -/
def headerIdxs (lines : List String) : List Nat :=
  (List.range lines.length).filter (fun i => isATXHeader (lines.getD i ""))

/-- Index of the next ATX header strictly after position i, or the total
number of lines when no later header exists. -/
def nextHeaderIdx (lines : List String) (i : Nat) : Nat :=
  i + 1 + (lines.drop (i + 1)).findIdx isATXHeader

/-- Claim-side rendering of the markdown pass with header-exclusive spans:
each header is rendered with the number of lines strictly between it and the
next header at any level, or to end of file. -/
def mdSpecEntriesExcl (lines : List String) : List String :=
  (headerIdxs lines).map
    (fun i => renderEntry (lines.getD i "") (nextHeaderIdx lines i - (i + 1)))

/-- Claim-side rendering of the markdown pass with header-inclusive spans, as
the claim words it: each header is rendered with the number of lines from the
header line itself up to, but not including, the next header at any level, or
to end of file. -/
def mdSpecEntriesIncl (lines : List String) : List String :=
  (headerIdxs lines).map
    (fun i => renderEntry (lines.getD i "") (nextHeaderIdx lines i - i))

/-- The four-header markdown fixture of spec section 8, as it appears in the
repository's test suite. -/
def mdExample : String :=
  "# Main Title\nSome content here\n\n## Section 1\nMore content\n\n### Subsection\nEven more content\n\n## Section 2\nFinal content"

/-- The output the repository's test suite requires for the four-header
markdown fixture. -/
def mdExpected : String :=
  "# Main Title [lines:2]\n## Section 1 [lines:2]\n### Subsection [lines:2]\n## Section 2 [lines:1]"

/-- True when the string ends with a newline character. -/
def endsNl (s : String) : Bool :=
  match s.data.getLast? with
  | some ch => ch = Char.ofNat 10
  | none => false

/-- Claim-side notion of the number of visual lines a human would count in a
text: the segments produced by splitting on newline, except that the empty
segment after a trailing newline is not counted as an extra line. -/
def humanVisualLineCount (s : String) : Nat :=
  if endsNl s then (splitLines s).length - 1 else (splitLines s).length

/-- The brace-delimited fixture of spec section 8. -/
def exBrace : List String :=
  ["function test() \x7b", "    let x = 1;", "    return x;", "\x7d"]

/-- The indentation-delimited fixture of spec section 8. -/
def exIndent : List String :=
  ["def test():", "    x = 1", "    return x", "", "def next_function():"]

/-! ### File system walker (reposcribe/walker.py) -/

/-- Binary file extensions skipped by the walker
(FileSystemWalker.BINARY_EXTENSIONS, walker.py lines 22-28). -/
def BINARY_EXTENSIONS : List String :=
  [".pyc", ".pyo", ".so", ".dll", ".dylib", ".exe",
   ".obj", ".bin", ".pdf", ".jpg", ".jpeg", ".png",
   ".gif", ".bmp", ".ico", ".db", ".sqlite", ".zip",
   ".tar", ".gz", ".7z", ".rar", ".jar", ".war",
   ".ear", ".class", ".mo", ".pkl", ".pyd"]

/-- Magic signatures of binary formats checked by FileSystemWalker._is_binary
(walker.py lines 199-208), as byte value lists. -/
def binarySigs : List (List Nat) :=
  [[0],
   [255, 216, 255],
   [137, 80, 78, 71, 13, 10, 26, 10],
   [71, 73, 70, 56, 57, 97],
   [66, 77],
   [37, 80, 68, 70],
   [80, 75, 3, 4]]

/-- Null bytes plus characters above 0x7f in a chunk
(walker.py lines 214-216). -/
def chunkSuspicious (chunk : List Nat) : Nat :=
  (chunk.filter (fun b => b = 0)).length + (chunk.filter (fun b => 127 < b)).length

/-- FileSystemWalker._is_binary (walker.py lines 196-220): a chunk is binary
when it starts with a known magic signature or more than 30 percent of its
bytes are null or high-ASCII. The float threshold len(chunk) times 0.3 is
embedded as the exact rational comparison 10 times suspicious greater than
3 times length. -/
def isBinaryChunk (chunk : List Nat) : Bool :=
  binarySigs.any (fun sig => sig.isPrefixOf chunk) ||
    decide (3 * chunk.length < 10 * chunkSuspicious chunk)

/-- Environment of one read_file call: the outcomes of every external
operation the walker performs on the file. A value of the error form models
the corresponding Python operation raising an exception; the suffix is the
lowercased path suffix with its leading dot; the chunk is the first bytes
read for binary detection; the confidence is chardet's detection confidence;
the decode result is the outcome of bytes.decode, with failure as none. -/
structure FileEnv where
  suffix : String
  statSize : Except Unit Nat
  chunkRead : Except Unit (List Nat)
  contentRead : Except Unit (List Nat)
  confidence : ℚ
  decodeResult : Option String

/-- FileSystemWalker._should_read_file (walker.py lines 178-194): binary
extensions and empty files are skipped, then the first bytes are inspected
for binary content; a failure while opening or reading the probe chunk is
caught inside this helper and yields false, while a stat failure propagates
to the caller. -/
def shouldReadFile (e : FileEnv) : Except Unit Bool :=
  if BINARY_EXTENSIONS.contains e.suffix then .ok false
  else
    match e.statSize with
    | .error u => .error u
    | .ok size =>
      if size = 0 then .ok false
      else
        match e.chunkRead with
        | .error _ => .ok false
        | .ok chunk => .ok (!isBinaryChunk chunk)

/-- Body of FileSystemWalker.read_file before its enclosing try (walker.py
lines 93-114): skip checks, full read, size limit, encoding confidence, and
decoding; an error value models an uncaught exception reaching the outer
handler. -/
def readFileRes (maxSize : Nat) (e : FileEnv) : Except Unit (Option String) :=
  match shouldReadFile e with
  | .error u => .error u
  | .ok false => .ok none
  | .ok true =>
    match e.contentRead with
    | .error u => .error u
    | .ok content =>
      if maxSize < content.length then .ok none
      else if e.confidence < 7 / 10 then .ok none
      else .ok e.decodeResult

/-- FileSystemWalker.read_file (walker.py lines 82-118): the whole body runs
inside a try whose handler converts every exception into the absent result. -/
def read_file (maxSize : Nat) (e : FileEnv) : Option String :=
  match readFileRes maxSize e with
  | .error _ => none
  | .ok r => r

/-! ### Auxiliary list lemmas -/

theorem tw_length_le {α : Type} (p : α → Bool) (l : List α) :
    (l.takeWhile p).length ≤ l.length := by
  induction l with
  | nil => simp
  | cons a l ih =>
    rw [List.takeWhile_cons]
    by_cases h : p a = true
    · simp only [if_pos h, List.length_cons]
      omega
    · simp [if_neg h]

theorem tw_getD_of_lt {α : Type} (p : α → Bool) (l : List α) (j : Nat) (d : α)
    (h : j < (l.takeWhile p).length) : p (l.getD j d) = true := by
  induction l generalizing j with
  | nil => simp at h
  | cons a l ih =>
    rw [List.takeWhile_cons] at h
    by_cases hp : p a = true
    · rw [if_pos hp] at h
      cases j with
      | zero => simpa using hp
      | succ j =>
        rw [List.getD_cons_succ]
        exact ih j (by simpa using h)
    · rw [if_neg hp] at h
      simp at h

theorem tw_getD_stop {α : Type} (p : α → Bool) (l : List α) (d : α)
    (h : (l.takeWhile p).length < l.length) :
    p (l.getD (l.takeWhile p).length d) = false := by
  induction l with
  | nil => simp at h
  | cons a l ih =>
    by_cases hp : p a = true
    · rw [List.takeWhile_cons, if_pos hp] at h ⊢
      simp only [List.length_cons, List.getD_cons_succ]
      exact ih (by simpa using h)
    · rw [List.takeWhile_cons, if_neg hp]
      simp only [List.length_nil, List.getD_cons_zero]
      simpa using hp

theorem getD_drop' {α : Type} (l : List α) (n m : Nat) (d : α) :
    (l.drop n).getD m d = l.getD (n + m) d := by
  rw [List.getD_eq_getElem?_getD, List.getD_eq_getElem?_getD, List.getElem?_drop]

theorem tw_length_findIdx {α : Type} (p : α → Bool) (l : List α) :
    (l.takeWhile (fun x => !p x)).length = l.findIdx p := by
  induction l with
  | nil => simp
  | cons a l ih =>
    rw [List.takeWhile_cons, List.findIdx_cons]
    by_cases hp : p a = true
    · simp [hp]
    · have hpa : p a = false := by simpa using hp
      simp [hpa, ih]

/-! ### The markdown scan agrees with its index-based description -/

theorem headerIdxs_cons (a : String) (l : List String) :
    headerIdxs (a :: l) =
      (if isATXHeader a then [0] else []) ++ (headerIdxs l).map (fun i => i + 1) := by
  have hfun : ((fun i => isATXHeader ((a :: l).getD i "")) ∘ Nat.succ)
      = (fun i => isATXHeader (l.getD i "")) := by
    funext i
    simp [Function.comp, List.getD_cons_succ]
  unfold headerIdxs
  rw [List.length_cons, List.range_succ_eq_map, List.filter_cons, List.filter_map, hfun]
  by_cases h : isATXHeader a = true
  · simp [List.getD_cons_zero, h, Nat.succ_eq_add_one]
  · simp [List.getD_cons_zero, h, Nat.succ_eq_add_one]

theorem nextHeaderIdx_cons_succ (a : String) (l : List String) (i : Nat) :
    nextHeaderIdx (a :: l) (i + 1) = nextHeaderIdx l i + 1 := by
  unfold nextHeaderIdx
  rw [List.drop_succ_cons]
  omega

theorem nextHeaderIdx_cons_zero (a : String) (l : List String) :
    nextHeaderIdx (a :: l) 0 = 1 + l.findIdx isATXHeader := by
  unfold nextHeaderIdx
  norm_num [List.drop_one]

theorem mdEntries_eq_spec (lines : List String) :
    mdEntries lines = mdSpecEntriesExcl lines := by
  induction lines with
  | nil => rfl
  | cons a l ih =>
    unfold mdSpecEntriesExcl at ih ⊢
    rw [headerIdxs_cons, List.map_append, List.map_map]
    have hshift :
        ((fun i => renderEntry ((a :: l).getD i "") (nextHeaderIdx (a :: l) i - (i + 1)))
            ∘ (fun i => i + 1))
        = (fun i => renderEntry (l.getD i "") (nextHeaderIdx l i - (i + 1))) := by
      funext i
      simp only [Function.comp, List.getD_cons_succ, nextHeaderIdx_cons_succ]
      congr 1
      omega
    rw [hshift]
    by_cases h : isATXHeader a = true
    · simp only [if_pos h, List.map_cons, List.map_nil, List.getD_cons_zero,
        List.singleton_append]
      simp only [mdEntries, if_pos h]
      rw [ih]
      congr 2
      rw [nextHeaderIdx_cons_zero]
      unfold mdSpanFrom
      rw [tw_length_findIdx]
      omega
    · simp only [if_neg h, List.nil_append]
      simp only [mdEntries, if_neg h]
      exact ih

theorem md_entries_ne_nil (lines : List String) (h : headerIdxs lines ≠ []) :
    mdEntries lines ≠ [] := by
  rw [mdEntries_eq_spec]
  unfold mdSpecEntriesExcl
  simpa using h

theorem passthrough_eq (path content : String) (h : classify path = Category.passthrough) :
    process_file path content = content := by
  by_cases hc : content = ""
  · subst hc
    simp [process_file]
  · rw [process_file, if_neg hc, h]

/-- Claim C1 (amended): for every markdown file with at least one ATX header,
process_file emits one entry per header in document order, each rendered as
the header line followed by its bracketed span, where the span counts the
lines from the line after the header up to but not including the next header
at any level, or to end of file; on the four-header fixture of spec section 8
the rendered spans are 2, 2, 2 and 1. -/
theorem markdown_contract (path content : String)
    (hcat : classify path = Category.markdown) (hne : content ≠ "")
    (hhead : headerIdxs (splitLines content) ≠ []) :
    process_file path content = joinNL (mdSpecEntriesExcl (splitLines content)) ∧
    process_file "test.md" mdExample = mdExpected := by
  constructor
  · rw [process_file, if_neg hne, hcat]
    show processMarkdown (splitLines content) = _
    simp only [processMarkdown]
    rw [mdEntries_eq_spec]
    have hnil : (mdSpecEntriesExcl (splitLines content)).isEmpty = false := by
      have hne2 : mdSpecEntriesExcl (splitLines content) ≠ [] := by
        rw [← mdEntries_eq_spec]
        exact md_entries_ne_nil (splitLines content) hhead
      cases hm : mdSpecEntriesExcl (splitLines content) with
      | nil => exact absurd hm hne2
      | cons x xs => rfl
    rw [hnil]
    simp
  · rfl

/-- Claim C1 witness: the amended contract instantiated on the four-header
fixture of spec section 8. -/
theorem markdown_contract_witness :
    process_file "test.md" mdExample = joinNL (mdSpecEntriesExcl (splitLines mdExample)) ∧
    process_file "test.md" mdExample = mdExpected :=
  markdown_contract "test.md" mdExample (by decide) (by decide) (by decide)

/-- Claim C1 counterexample: on the four-header fixture of spec section 8 the
engine's output is the test-mandated rendering with spans 2, 2, 2, 1, and the
header-inclusive rendering the claim describes (spans 3, 3, 3, 2) differs
from it. -/
theorem markdown_inclusive_span_counterexample :
    process_file "test.md" mdExample = mdExpected ∧
    joinNL (mdSpecEntriesIncl (splitLines mdExample)) ≠ mdExpected :=
  ⟨rfl, by decide⟩

/-- Claim C2 (amended): for every non-empty content and every path whose
extension is in the line-count-only set, process_file returns exactly the
bracketed count of the segments produced by splitting content on the newline
character; when content does not end with a newline this count equals the
number of visual lines a human would count. -/
theorem line_count_only_contract (path content : String)
    (hcat : classify path = Category.lineCountOnly) (hne : content ≠ "") :
    process_file path content = "[lines:" ++ toString (splitLines content).length ++ "]" ∧
    (endsNl content = false → (splitLines content).length = humanVisualLineCount content) := by
  constructor
  · rw [process_file, if_neg hne, hcat]
  · intro hnl
    unfold humanVisualLineCount
    rw [hnl]
    simp

/-- Claim C2 witness: the amended contract instantiated on the 8-line YAML
fixture of the test suite. -/
theorem line_count_only_contract_witness :
    process_file "config.yml" "version: 1.0\nname: test-project\ndependencies:\n  - requests\n  - click\nconfig:\n  debug: true\n  port: 8080" = "[lines:8]" :=
  (line_count_only_contract "config.yml"
    "version: 1.0\nname: test-project\ndependencies:\n  - requests\n  - click\nconfig:\n  debug: true\n  port: 8080"
    (by decide) (by decide)).1.trans (by decide)

/-- Claim C2 counterexample: a text file whose content is one visual line
followed by a trailing newline is reported as two lines by the engine, because
splitting on newline produces a trailing empty segment, so the trailing
newline does add an extra counted line. -/
theorem line_count_trailing_newline_counterexample :
    process_file "test.txt" "line1\n" = "[lines:2]" ∧
    humanVisualLineCount "line1\n" = 1 ∧ (2 : Nat) ≠ 1 :=
  ⟨rfl, rfl, by decide⟩

/-- Claim C3: a non-empty Python file in which every line is blank, a comment,
or an import matches no structural pattern, so process_file returns the
literal string empty, which is distinct from the empty string returned for
truly empty input. -/
theorem code_no_match_returns_empty (path content : String)
    (hcat : classify path = Category.code Lang.py) (hne : content ≠ "")
    (hall : ∀ l ∈ splitLines content,
      isBlankLine l = true ∨ lineStarts l "#" = true ∨
      lineStarts l "import " = true ∨ lineStarts l "from " = true) :
    process_file path content = "empty" ∧ process_file path "" = "" ∧ "empty" ≠ "" := by
  refine ⟨?_, by simp [process_file], by decide⟩
  rw [process_file, if_neg hne, hcat]
  show processCode (tableOf Lang.py) (splitLines content) = "empty"
  simp only [processCode]
  have hnil : codeEntries (tableOf Lang.py) (splitLines content) = [] := by
    rw [codeEntries, List.filterMap_eq_nil_iff]
    intro i hi
    rw [List.mem_range] at hi
    have hmem : (splitLines content).getD i "" ∈ splitLines content := by
      rw [List.getD_eq_getElem _ _ hi]
      exact List.getElem_mem hi
    have hskip : pySkip ((splitLines content).getD i "") = true := by
      unfold pySkip
      rcases hall _ hmem with h | h | h | h <;> rw [h] <;> simp
    simp only [codeEntryAt, tableOf]
    rw [if_pos hskip]
  rw [hnil]
  simp

/-- Claim C3 witness: the contract instantiated on the imports-only fixture of
the test suite. -/
theorem code_no_match_returns_empty_witness :
    process_file "imports_only.py" "import sys\nimport os\nfrom pathlib import Path\n" = "empty" :=
  (code_no_match_returns_empty "imports_only.py"
    "import sys\nimport os\nfrom pathlib import Path\n"
    (by decide) (by decide) (by decide)).1

/-- Claim C4: for every path classified as pass-through, that is whose
extension is not line-count-only, not markdown and not a known code language,
process_file returns the content unchanged. -/
theorem passthrough_returns_content (path content : String)
    (h : classify path = Category.passthrough) :
    process_file path content = content :=
  passthrough_eq path content h

/-- Claim C4 witness: the pass-through contract instantiated on a file with
the unknown extension xyz. -/
theorem passthrough_returns_content_witness :
    classify "test.xyz" = Category.passthrough ∧
    process_file "test.xyz" "Some random content\nWith multiple lines"
      = "Some random content\nWith multiple lines" :=
  ⟨by decide,
   passthrough_returns_content "test.xyz" "Some random content\nWith multiple lines" (by decide)⟩

/-- Claim C5: for every path, regardless of extension or category, processing
empty content returns the empty string, since the empty-content check comes
before classification. -/
theorem empty_content_returns_empty (path : String) :
    process_file path "" = "" := by
  simp [process_file]

/-- Claim C8: process_file is idempotent through the pass-through rule:
feeding any output back in under a path whose extension is unsupported
returns that output unchanged. -/
theorem process_file_idempotent (p q c : String)
    (h : classify q = Category.passthrough) :
    process_file q (process_file p c) = process_file p c :=
  passthrough_eq q (process_file p c) h

/-- Claim C8 witness: the idempotence contract instantiated on a Python file
whose signature output is re-fed under the unknown extension xyz. -/
theorem process_file_idempotent_witness :
    process_file "out.xyz" (process_file "test.py" "def test(): pass")
      = process_file "test.py" "def test(): pass" :=
  process_file_idempotent "test.py" "out.xyz" "def test(): pass" (by decide)

/-! ### Properties of the brace-delimited span calculator -/

theorem braceGo_no_close (ls : List String) : ∀ (d : Int) (op : Bool) (c : Nat),
    (∀ l ∈ ls, hasCloseBrace l = false) → 0 ≤ d → (op = true → 0 < d) →
    braceGo ls d op c = 1 := by
  induction ls with
  | nil =>
    intro d op c _ _ _
    rfl
  | cons l rest ih =>
    intro d op c h hd hop
    have hcl : countClose l = 0 := by
      have h0 := h l (List.mem_cons_self l rest)
      unfold hasCloseBrace at h0
      simpa using h0
    have hdelta : braceDelta l = (countOpen l : Int) := by
      unfold braceDelta
      rw [hcl]
      simp
    have hnn : (0 : Int) ≤ (countOpen l : Int) := Int.natCast_nonneg _
    have hop' : (op || hasOpenBrace l) = true → 0 < d + braceDelta l := by
      intro hor
      rw [hdelta]
      have hor2 : op = true ∨ hasOpenBrace l = true := by simpa using hor
      rcases hor2 with h1 | h1
      · have := hop h1
        omega
      · unfold hasOpenBrace at h1
        have : 0 < countOpen l := of_decide_eq_true h1
        omega
    have hcond : ((op || hasOpenBrace l) && decide (d + braceDelta l ≤ 0)) = false := by
      by_cases ho : (op || hasOpenBrace l) = true
      · have := hop' ho
        simp only [ho, Bool.true_and]
        exact decide_eq_false (by omega)
      · have ho2 : (op || hasOpenBrace l) = false := by simpa using ho
        rw [ho2]
        simp
    simp only [braceGo]
    rw [hcond]
    simp only [Bool.false_eq_true, if_false]
    exact ih (d + braceDelta l) (op || hasOpenBrace l) (c + 1)
      (fun x hx => h x (List.mem_cons_of_mem _ hx))
      (by rw [hdelta]; omega) hop'

theorem braceGo_le (ls : List String) : ∀ (d : Int) (op : Bool) (c : Nat),
    braceGo ls d op c ≤ max 1 (c + ls.length) := by
  induction ls with
  | nil =>
    intro d op c
    simp [braceGo]
  | cons l rest ih =>
    intro d op c
    simp only [braceGo, List.length_cons]
    by_cases hcond : ((op || hasOpenBrace l) && decide (d + braceDelta l ≤ 0)) = true
    · rw [if_pos hcond]
      omega
    · rw [if_neg hcond]
      have := ih (d + braceDelta l) (op || hasOpenBrace l) (c + 1)
      omega

/-- Claim C6: the brace-delimited span calculator returns 4 on the fixture of
spec section 8; it returns 1 whenever no closing brace appears anywhere in the
scanned region; and it never reads past the end of the line sequence, its
result never exceeding the number of available lines from the start index
(with the floor of one line). -/
theorem brace_span_contract :
    count_lines_by_braces exBrace 0 = 4 ∧
    (∀ (lines : List String) (start : Nat),
      (∀ l ∈ lines.drop start, hasCloseBrace l = false) →
      count_lines_by_braces lines start = 1) ∧
    (∀ (lines : List String) (start : Nat),
      count_lines_by_braces lines start ≤ max 1 (lines.length - start)) := by
  refine ⟨by decide, ?_, ?_⟩
  · intro lines start h
    exact braceGo_no_close (lines.drop start) 0 false 0 h (le_refl 0) (by simp)
  · intro lines start
    have h := braceGo_le (lines.drop start) 0 false 0
    rwa [Nat.zero_add, List.length_drop] at h

/-- Claim C6 witness: the contract applied to a single declaration line with
no braces, and to the section 8 fixture. -/
theorem brace_span_contract_witness :
    count_lines_by_braces ["function stub();"] 0 = 1 ∧
    count_lines_by_braces exBrace 0 = 4 :=
  ⟨brace_span_contract.2.1 ["function stub();"] 0 (by decide),
   brace_span_contract.1⟩

/-! ### Properties of the indentation-delimited span calculator -/

/-- Claim C7: the indentation-delimited span calculator returns 4 on the
fixture of spec section 8, counting the interior blank line and stopping
before the dedented declaration; in general its span covers the start line
plus following lines that are blank or more indented than the base, the first
non-blank line at or below the base indent is excluded, and the span never
runs past end of file. -/
theorem indent_span_contract :
    count_lines_by_indent exIndent 0 0 = 4 ∧
    (∀ (lines : List String) (start base : Nat),
      1 ≤ count_lines_by_indent lines start base ∧
      (∀ j, start < j → j < start + count_lines_by_indent lines start base →
        indentContinues base (lines.getD j "") = true) ∧
      (start + count_lines_by_indent lines start base < lines.length →
        indentContinues base
          (lines.getD (start + count_lines_by_indent lines start base) "") = false) ∧
      start + count_lines_by_indent lines start base ≤ max (start + 1) lines.length) := by
  refine ⟨by decide, ?_⟩
  intro lines start base
  have hcount : count_lines_by_indent lines start base
      = 1 + ((lines.drop (start + 1)).takeWhile (indentContinues base)).length := rfl
  have hTle : ((lines.drop (start + 1)).takeWhile (indentContinues base)).length
      ≤ lines.length - (start + 1) := by
    have h := tw_length_le (indentContinues base) (lines.drop (start + 1))
    rwa [List.length_drop] at h
  refine ⟨by omega, ?_, ?_, by omega⟩
  · intro j hj1 hj2
    rw [hcount] at hj2
    have hm : j = start + 1 + (j - (start + 1)) := by omega
    have hlt : j - (start + 1)
        < ((lines.drop (start + 1)).takeWhile (indentContinues base)).length := by omega
    rw [hm, ← getD_drop']
    exact tw_getD_of_lt _ _ _ _ hlt
  · intro hlt
    rw [hcount] at hlt ⊢
    have h2 : ((lines.drop (start + 1)).takeWhile (indentContinues base)).length
        < (lines.drop (start + 1)).length := by
      rw [List.length_drop]
      omega
    have h3 := tw_getD_stop (indentContinues base) (lines.drop (start + 1)) "" h2
    rw [getD_drop'] at h3
    have harith : start + (1 + ((lines.drop (start + 1)).takeWhile (indentContinues base)).length)
        = start + 1 + ((lines.drop (start + 1)).takeWhile (indentContinues base)).length := by
      omega
    rw [harith]
    exact h3

/-- Claim C7 witness: the contract applied to the section 8 fixture, checking
both the concrete span and that the line just past the span is a dedented
non-blank line. -/
theorem indent_span_contract_witness :
    count_lines_by_indent exIndent 0 0 = 4 ∧
    indentContinues 0 (exIndent.getD (0 + count_lines_by_indent exIndent 0 0) "") = false :=
  ⟨indent_span_contract.1,
   (indent_span_contract.2 exIndent 0 0).2.2.1 (by decide)⟩

/-! ### Properties of the walker's read_file -/

theorem sr_false_of_ext (e : FileEnv) (h : BINARY_EXTENSIONS.contains e.suffix = true) :
    shouldReadFile e = .ok false := by
  unfold shouldReadFile
  rw [if_pos h]

theorem sr_false_of_zero (e : FileEnv) (h : e.statSize = .ok 0) :
    shouldReadFile e = .ok false := by
  unfold shouldReadFile
  by_cases hext : BINARY_EXTENSIONS.contains e.suffix = true
  · rw [if_pos hext]
  · rw [if_neg hext, h]
    simp

theorem none_of_sr_false (maxSize : Nat) (e : FileEnv) (h : shouldReadFile e = .ok false) :
    read_file maxSize e = none := by
  unfold read_file readFileRes
  rw [h]

theorem none_of_sr_err (maxSize : Nat) (e : FileEnv) (u : Unit)
    (h : shouldReadFile e = .error u) :
    read_file maxSize e = none := by
  unfold read_file readFileRes
  rw [h]

theorem readFileRes_true_ok (maxSize : Nat) (e : FileEnv) (content : List Nat)
    (h : shouldReadFile e = .ok true) (hc : e.contentRead = .ok content) :
    readFileRes maxSize e =
      (if maxSize < content.length then .ok none
       else if e.confidence < 7 / 10 then .ok none else .ok e.decodeResult) := by
  unfold readFileRes
  rw [h, hc]

theorem readFileRes_true_err (maxSize : Nat) (e : FileEnv)
    (h : shouldReadFile e = .ok true) (hc : e.contentRead = .error ()) :
    readFileRes maxSize e = .error () := by
  unfold readFileRes
  rw [h, hc]

theorem read_file_res (maxSize : Nat) (e : FileEnv) (r : Option String)
    (h : readFileRes maxSize e = .ok r) : read_file maxSize e = r := by
  unfold read_file
  rw [h]

theorem read_file_res_err (maxSize : Nat) (e : FileEnv) (u : Unit)
    (h : readFileRes maxSize e = .error u) : read_file maxSize e = none := by
  unfold read_file
  rw [h]

theorem read_file_ok_true_cases (maxSize : Nat) (e : FileEnv)
    (h : shouldReadFile e = .ok true) :
    (e.contentRead = .error () → read_file maxSize e = none) ∧
    (∀ content, e.contentRead = .ok content →
      ((maxSize < content.length → read_file maxSize e = none) ∧
       (content.length ≤ maxSize → e.confidence < 7 / 10 → read_file maxSize e = none) ∧
       (content.length ≤ maxSize → ¬(e.confidence < 7 / 10) →
         read_file maxSize e = e.decodeResult))) := by
  constructor
  · intro hc
    exact read_file_res_err maxSize e () (readFileRes_true_err maxSize e h hc)
  · intro content hc
    refine ⟨?_, ?_, ?_⟩
    · intro hlen
      have hres := readFileRes_true_ok maxSize e content h hc
      rw [if_pos hlen] at hres
      exact read_file_res maxSize e none hres
    · intro hlen hconf
      have hres := readFileRes_true_ok maxSize e content h hc
      rw [if_neg (not_lt.mpr hlen), if_pos hconf] at hres
      exact read_file_res maxSize e none hres
    · intro hlen hconf
      have hres := readFileRes_true_ok maxSize e content h hc
      rw [if_neg (not_lt.mpr hlen), if_neg hconf] at hres
      exact read_file_res maxSize e e.decodeResult hres

/-- Claim C9: read_file is total, returning a decoded string or the absent
result and never raising, every exception being converted to the absent
result; and it returns the absent result whenever the extension is in the
binary set, stat fails, the size is zero, the probe chunk is detected as
binary, the full content exceeds the size limit, the read fails, the
detected encoding confidence is below seven tenths, or decoding fails. -/
theorem read_file_contract (maxSize : Nat) (e : FileEnv) :
    (read_file maxSize e = none ∨ ∃ s, read_file maxSize e = some s) ∧
    (BINARY_EXTENSIONS.contains e.suffix = true → read_file maxSize e = none) ∧
    (e.statSize = .error () → read_file maxSize e = none) ∧
    (e.statSize = .ok 0 → read_file maxSize e = none) ∧
    (∀ chunk, e.chunkRead = .ok chunk → isBinaryChunk chunk = true →
      read_file maxSize e = none) ∧
    (∀ content, e.contentRead = .ok content → maxSize < content.length →
      read_file maxSize e = none) ∧
    (e.contentRead = .error () → read_file maxSize e = none) ∧
    (e.confidence < 7 / 10 → read_file maxSize e = none) ∧
    (e.decodeResult = none → read_file maxSize e = none) := by
  refine ⟨?_, ?_, ?_, ?_, ?_, ?_, ?_, ?_, ?_⟩
  · cases hr : read_file maxSize e with
    | none => exact Or.inl rfl
    | some s => exact Or.inr ⟨s, rfl⟩
  · intro h
    exact none_of_sr_false maxSize e (sr_false_of_ext e h)
  · intro h
    by_cases hext : BINARY_EXTENSIONS.contains e.suffix = true
    · exact none_of_sr_false maxSize e (sr_false_of_ext e hext)
    · have hsr : shouldReadFile e = .error () := by
        unfold shouldReadFile
        rw [if_neg hext, h]
      exact none_of_sr_err maxSize e () hsr
  · intro h
    exact none_of_sr_false maxSize e (sr_false_of_zero e h)
  · intro chunk hchunk hbinchunk
    by_cases hext : BINARY_EXTENSIONS.contains e.suffix = true
    · exact none_of_sr_false maxSize e (sr_false_of_ext e hext)
    · cases hstat : e.statSize with
      | error u =>
        cases u
        have hsr : shouldReadFile e = .error () := by
          unfold shouldReadFile
          rw [if_neg hext, hstat]
        exact none_of_sr_err maxSize e () hsr
      | ok size =>
        by_cases hz : size = 0
        · subst hz
          exact none_of_sr_false maxSize e (sr_false_of_zero e hstat)
        · have hsr : shouldReadFile e = .ok false := by
            unfold shouldReadFile
            rw [if_neg hext, hstat]
            simp [hz, hchunk, hbinchunk]
          exact none_of_sr_false maxSize e hsr
  · intro content hcontent hlen
    cases hsr : shouldReadFile e with
    | error u => exact none_of_sr_err maxSize e u hsr
    | ok b =>
      cases b with
      | false => exact none_of_sr_false maxSize e hsr
      | true => exact ((read_file_ok_true_cases maxSize e hsr).2 content hcontent).1 hlen
  · intro hcontent
    cases hsr : shouldReadFile e with
    | error u => exact none_of_sr_err maxSize e u hsr
    | ok b =>
      cases b with
      | false => exact none_of_sr_false maxSize e hsr
      | true => exact (read_file_ok_true_cases maxSize e hsr).1 hcontent
  · intro hconf
    cases hsr : shouldReadFile e with
    | error u => exact none_of_sr_err maxSize e u hsr
    | ok b =>
      cases b with
      | false => exact none_of_sr_false maxSize e hsr
      | true =>
        cases hcontent : e.contentRead with
        | error u =>
          cases u
          exact (read_file_ok_true_cases maxSize e hsr).1 hcontent
        | ok content =>
          by_cases hlen : maxSize < content.length
          · exact ((read_file_ok_true_cases maxSize e hsr).2 content hcontent).1 hlen
          · exact ((read_file_ok_true_cases maxSize e hsr).2 content hcontent).2.1
              (by omega) hconf
  · intro hdec
    cases hsr : shouldReadFile e with
    | error u => exact none_of_sr_err maxSize e u hsr
    | ok b =>
      cases b with
      | false => exact none_of_sr_false maxSize e hsr
      | true =>
        cases hcontent : e.contentRead with
        | error u =>
          cases u
          exact (read_file_ok_true_cases maxSize e hsr).1 hcontent
        | ok content =>
          by_cases hlen : maxSize < content.length
          · exact ((read_file_ok_true_cases maxSize e hsr).2 content hcontent).1 hlen
          · by_cases hconf : e.confidence < 7 / 10
            · exact ((read_file_ok_true_cases maxSize e hsr).2 content hcontent).2.1
                (by omega) hconf
            · have hfin := ((read_file_ok_true_cases maxSize e hsr).2 content hcontent).2.2
                (by omega) hconf
              rw [hfin, hdec]

/-- Environment of a zero-length Python file, used as a concrete witness. -/
def envZero : FileEnv := ⟨".py", .ok 0, .ok [], .ok [], 1, some "x"⟩

/-- Environment of a small PNG file, used as a concrete witness. -/
def envBin : FileEnv := ⟨".png", .ok 5, .ok [1, 2], .ok [1, 2], 1, some "x"⟩

/-- Claim C9 witness: the contract applied to a file with a binary extension,
which the walker skips. -/
theorem read_file_contract_witness : read_file 100 envBin = none :=
  (read_file_contract 100 envBin).2.1 (by decide)

/-- Claim C10: a zero-length file is never read: when stat reports size zero
the skip check returns false and read_file returns the absent result, so no
empty-string content can reach the signature engine through this pipeline. -/
theorem zero_size_never_reaches_engine (maxSize : Nat) (e : FileEnv) :
    (e.statSize = .ok 0 → shouldReadFile e = .ok false ∧ read_file maxSize e = none) ∧
    (∀ s, read_file maxSize e = some s → e.statSize ≠ .ok 0) := by
  constructor
  · intro h
    exact ⟨sr_false_of_zero e h, none_of_sr_false maxSize e (sr_false_of_zero e h)⟩
  · intro s hs h
    have hn := none_of_sr_false maxSize e (sr_false_of_zero e h)
    rw [hn] at hs
    exact Option.noConfusion hs

/-- Claim C10 witness: the contract applied to a zero-length file. -/
theorem zero_size_never_reaches_engine_witness :
    shouldReadFile envZero = .ok false ∧ read_file 100 envZero = none :=
  (zero_size_never_reaches_engine 100 envZero).1 rfl

end Project2md
